import Mathlib

/-!
Verification of the backfill pipeline of the revenium-claude-code-sdk
repository.  The definitions below are shallow embeddings of the
TypeScript source: `generateTransactionId` (src/utils/hashing.ts),
`isRetryableError`, `sanitizeErrorMessage`, `sendBatchWithRetry`,
`parseJsonlLine`, `calculateStatistics`, `findJsonlFiles`, the batch send
loop of `backfillCommand`, and the cost-multiplier resolution
(src/utils/constants.ts).  Machine integers are modelled as `Nat` with
explicit reduction modulo 2^32 where the source relies on 32-bit
wrap-around (inside SHA-256); JavaScript library functions that are not
part of the repository (JSON.parse, Date parsing, the filesystem) are
modelled as explicit parameters or as explicit tree structures.
-/

namespace Revenium

/-! ## SHA-256 (the `createHash('sha256')` primitive used by hashing.ts)

Bytes are `Nat` values below 256, 32-bit words are `Nat` values below
2^32.  The implementation follows FIPS 180-4; recursion is structural on
an explicit fuel so that the kernel can evaluate concrete digests. -/

/-- Reduce modulo 2^32 (32-bit wrap-around). -/
def w32 (n : Nat) : Nat := n % 4294967296

/-- Rotate the 32-bit word `x` right by `n` positions. -/
def rotr (n x : Nat) : Nat := w32 ((x >>> n) ||| (x <<< (32 - n)))

/-- Bitwise complement of a 32-bit word. -/
def not32 (x : Nat) : Nat := x ^^^ 4294967295

/-- SHA-256 round constants. -/
def sha256K : List Nat :=
  [1116352408, 1899447441, 3049323471, 3921009573, 961987163,
   1508970993, 2453635748, 2870763221, 3624381080, 310598401,
   607225278, 1426881987, 1925078388, 2162078206, 2614888103,
   3248222580, 3835390401, 4022224774, 264347078, 604807628,
   770255983, 1249150122, 1555081692, 1996064986, 2554220882,
   2821834349, 2952996808, 3210313671, 3336571891, 3584528711,
   113926993, 338241895, 666307205, 773529912, 1294757372,
   1396182291, 1695183700, 1986661051, 2177026350, 2456956037,
   2730485921, 2820302411, 3259730800, 3345764771, 3516065817,
   3600352804, 4094571909, 275423344, 430227734, 506948616,
   659060556, 883997877, 958139571, 1322822218, 1537002063,
   1747873779, 1955562222, 2024104815, 2227730452, 2361852424,
   2428436474, 2756734187, 3204031479, 3329325298]

/-- The eight-word hash state. -/
structure Hash8 where
  a : Nat
  b : Nat
  c : Nat
  d : Nat
  e : Nat
  f : Nat
  g : Nat
  h : Nat
deriving DecidableEq

/-- Initial SHA-256 hash state. -/
def sha256Init : Hash8 :=
  ⟨1779033703, 3144134277, 1013904242, 2773480762,
   1359893119, 2600822924, 528734635, 1541459225⟩

/-- Message-schedule small sigma 0. -/
def ssig0 (x : Nat) : Nat := rotr 7 x ^^^ rotr 18 x ^^^ (x >>> 3)

/-- Message-schedule small sigma 1. -/
def ssig1 (x : Nat) : Nat := rotr 17 x ^^^ rotr 19 x ^^^ (x >>> 10)

/-- Compression big sigma 0. -/
def bsig0 (x : Nat) : Nat := rotr 2 x ^^^ rotr 13 x ^^^ rotr 22 x

/-- Compression big sigma 1. -/
def bsig1 (x : Nat) : Nat := rotr 6 x ^^^ rotr 11 x ^^^ rotr 25 x

/-- Group a byte list into big-endian 32-bit words. -/
def bytesToWords : List Nat → List Nat
  | b0 :: b1 :: b2 :: b3 :: rest =>
      (b0 * 16777216 + b1 * 65536 + b2 * 256 + b3) :: bytesToWords rest
  | _ => []

/-- Extend the 16 block words to the 64-word schedule; `k` is the number
of words still to append (fuel, structurally decreasing). -/
def extendSchedule (w : List Nat) : Nat → List Nat
  | 0 => w
  | k + 1 =>
      let i := w.length
      let wNew := w32 (ssig1 (w.getD (i - 2) 0) + w.getD (i - 7) 0 +
                       ssig0 (w.getD (i - 15) 0) + w.getD (i - 16) 0)
      extendSchedule (w ++ [wNew]) k

/-- One SHA-256 compression round. -/
def compressRound (k w : Nat) (st : Hash8) : Hash8 :=
  let t1 := w32 (st.h + bsig1 st.e + ((st.e &&& st.f) ^^^ (not32 st.e &&& st.g)) + k + w)
  let t2 := w32 (bsig0 st.a + ((st.a &&& st.b) ^^^ (st.a &&& st.c) ^^^ (st.b &&& st.c)))
  ⟨w32 (t1 + t2), st.a, st.b, st.c, w32 (st.d + t1), st.e, st.f, st.g⟩

/-- Compress one 64-byte block into the hash state. -/
def compressBlock (st : Hash8) (block : List Nat) : Hash8 :=
  let ws := extendSchedule (bytesToWords block) 48
  let fin := (sha256K.zip ws).foldl (fun s p => compressRound p.1 p.2 s) st
  ⟨w32 (st.a + fin.a), w32 (st.b + fin.b), w32 (st.c + fin.c), w32 (st.d + fin.d),
   w32 (st.e + fin.e), w32 (st.f + fin.f), w32 (st.g + fin.g), w32 (st.h + fin.h)⟩

/-- Fold the compression function over consecutive 64-byte blocks; the
fuel bounds the number of blocks and is structurally decreasing. -/
def sha256Blocks : Nat → Hash8 → List Nat → Hash8
  | 0, st, _ => st
  | _, st, [] => st
  | fuel + 1, st, msg => sha256Blocks fuel (compressBlock st (msg.take 64)) (msg.drop 64)

/-- The 8-byte big-endian encoding of the bit length. -/
def be64 (n : Nat) : List Nat :=
  [n >>> 56 % 256, n >>> 48 % 256, n >>> 40 % 256, n >>> 32 % 256,
   n >>> 24 % 256, n >>> 16 % 256, n >>> 8 % 256, n % 256]

/-- FIPS 180-4 padding: append 0x80, zeros to 56 mod 64, then the
64-bit big-endian bit length. -/
def padMessage (msg : List Nat) : List Nat :=
  msg ++ [128] ++ List.replicate ((119 - msg.length % 64) % 64) 0 ++ be64 (8 * msg.length)

/-- The four big-endian bytes of a 32-bit word. -/
def wordToBytes (x : Nat) : List Nat :=
  [x >>> 24 % 256, x >>> 16 % 256, x >>> 8 % 256, x % 256]

/-- The 32 digest bytes of a hash state. -/
def digestBytes (st : Hash8) : List Nat :=
  wordToBytes st.a ++ wordToBytes st.b ++ wordToBytes st.c ++ wordToBytes st.d ++
  wordToBytes st.e ++ wordToBytes st.f ++ wordToBytes st.g ++ wordToBytes st.h

/-- SHA-256 digest of a byte list. -/
def sha256 (msg : List Nat) : List Nat :=
  digestBytes (sha256Blocks (msg.length + 9) sha256Init (padMessage msg))

/-! ## Hex rendering and UTF-8 (the `.digest('hex')` and `.update(string)`
conventions of node:crypto) -/

/-- Hex digit character for a value below 16, lowercase letters. -/
def hexDigitChar (n : Nat) : Char :=
  if n < 10 then Char.ofNat (48 + n) else Char.ofNat (87 + n)

/-- Two lowercase hex characters of one byte. -/
def byteToHex (b : Nat) : List Char :=
  [hexDigitChar (b / 16 % 16), hexDigitChar (b % 16)]

/-- Lowercase hex characters of a byte list. -/
def bytesToHexChars (bs : List Nat) : List Char :=
  (bs.map byteToHex).flatten

/-- UTF-8 encoding of one character, as byte values. -/
def utf8Bytes (c : Char) : List Nat :=
  let n := c.toNat
  if n < 128 then [n]
  else if n < 2048 then [192 + n / 64, 128 + n % 64]
  else if n < 65536 then [224 + n / 4096, 128 + n / 64 % 64, 128 + n % 64]
  else [240 + n / 262144, 128 + n / 4096 % 64, 128 + n / 64 % 64, 128 + n % 64]

/-- UTF-8 encoding of a string, as byte values. -/
def strToBytes (s : String) : List Nat :=
  (s.data.map utf8Bytes).flatten

/-- A character is a lowercase hexadecimal digit: `0`-`9` or `a`-`f`. -/
def isLowerHexDigit (c : Char) : Bool :=
  (48 ≤ c.toNat && c.toNat ≤ 57) || (97 ≤ c.toNat && c.toNat ≤ 102)

/-! ## generateTransactionId (src/utils/hashing.ts) -/

/-- The record components hashed into a transaction id
(interface `TransactionIdComponents` of hashing.ts; the token counts are
the non-negative integers of the usage records). -/
structure TransactionIdComponents where
  sessionId : String
  timestamp : String
  model : String
  inputTokens : Nat
  outputTokens : Nat
  cacheReadTokens : Nat
  cacheCreationTokens : Nat

/-- The `[...].join('|')` input string of `generateTransactionId`. -/
def joinPipe (c : TransactionIdComponents) : String :=
  String.intercalate "|"
    [c.sessionId, c.timestamp, c.model, Nat.repr c.inputTokens,
     Nat.repr c.outputTokens, Nat.repr c.cacheReadTokens,
     Nat.repr c.cacheCreationTokens]

/-- `generateTransactionId` of src/utils/hashing.ts: SHA-256 of the
pipe-joined components, lowercase hex, truncated to 32 characters. -/
def generateTransactionId (c : TransactionIdComponents) : String :=
  String.mk ((bytesToHexChars (sha256 (strToBytes (joinPipe c)))).take 32)

/-! ## Error classification and retry (backfill command source) -/

/-- `sanitizeErrorMessage`: truncate messages longer than 500 characters
and append an ellipsis marker. -/
def sanitizeErrorMessage (errorMsg : String) : String :=
  if errorMsg.length > 500 then errorMsg.take 500 ++ "..." else errorMsg

/-- The literal part of the regex `/OTLP request failed: (\d{3})/`. -/
def otlpPfxChars : List Char := "OTLP request failed: ".data

/-- Whether the second list starts with the first list. -/
def startsWithChars : List Char → List Char → Bool
  | [], _ => true
  | _ :: _, [] => false
  | p :: ps, c :: cs => p == c && startsWithChars ps cs

/-- The value of three leading decimal digits, when present
(the `(\d{3})` capture group followed by `parseInt`). -/
def threeDigitsAfter : List Char → Option Nat
  | d1 :: d2 :: d3 :: _ =>
      if d1.isDigit && d2.isDigit && d3.isDigit then
        some ((d1.toNat - 48) * 100 + (d2.toNat - 48) * 10 + (d3.toNat - 48))
      else none
  | _ => none

/-- A full regex match starting at the head of the character list:
the literal `"OTLP request failed: "` (21 characters) immediately
followed by three digits. -/
def matchStatusAt (l : List Char) : Option Nat :=
  if startsWithChars otlpPfxChars l then threeDigitsAfter (l.drop 21) else none

/-- `errorMsg.match(/OTLP request failed: (\d{3})/)`: the status of the
first position at which the full pattern matches. -/
def extractStatus : List Char → Option Nat
  | [] => none
  | c :: rest =>
      match matchStatusAt (c :: rest) with
      | some n => some n
      | none => extractStatus rest

/-- `isRetryableError` of the backfill command: no extractable status or
status 429 or status outside `[400,500)` is retryable; other 4xx
statuses are not. -/
def isRetryableError (errorMsg : String) : Bool :=
  match extractStatus errorMsg.data with
  | none => true
  | some statusCode =>
      if statusCode == 429 then true
      else if 400 ≤ statusCode && statusCode < 500 then false
      else true

/-- Result of `sendBatchWithRetry` (interface `RetryResult`). -/
structure RetryResult where
  success : Bool
  attempts : Nat
  error : Option String := none
deriving DecidableEq

/-- The exponential backoff delay `1000 * Math.pow(2, attempt)`. -/
def backoffMs (attempt : Nat) : Nat := 1000 * 2 ^ attempt

/-- The retry loop of `sendBatchWithRetry`.  The delivery call
`sendOtlpLogs` is modelled by `deliver`: `none` is success, `some e` is
a thrown error with message `e`.  The second component of the result is
the list of backoff delays slept, in order.  The fuel equals
`maxRetries - attempt` at every call, so fuel 0 is exactly the loop exit
(the final `return` of the source). -/
def sendBatchWithRetryGo (deliver : Nat → Option String) (maxRetries : Nat) :
    Nat → Nat → RetryResult × List Nat
  | 0, _ => ({ success := false, attempts := maxRetries }, [])
  | fuel + 1, attempt =>
      match deliver attempt with
      | none => ({ success := true, attempts := attempt + 1 }, [])
      | some rawErrorMsg =>
          let errorMsg := sanitizeErrorMessage rawErrorMsg
          if isRetryableError errorMsg then
            if attempt < maxRetries - 1 then
              let r := sendBatchWithRetryGo deliver maxRetries fuel (attempt + 1)
              (r.1, backoffMs attempt :: r.2)
            else ({ success := false, attempts := maxRetries, error := some errorMsg }, [])
          else ({ success := false, attempts := attempt + 1, error := some errorMsg }, [])

/-- `sendBatchWithRetry` of the backfill command, with the delivery
function abstracted; returns the result together with the backoff
delays slept. -/
def sendBatchWithRetry (deliver : Nat → Option String) (maxRetries : Nat) :
    RetryResult × List Nat :=
  sendBatchWithRetryGo deliver maxRetries maxRetries 0

/-- Attempt `i` throws an error classified retryable (after
sanitization). -/
def retryFailsB (deliver : Nat → Option String) (i : Nat) : Bool :=
  match deliver i with
  | some e => isRetryableError (sanitizeErrorMessage e)
  | none => false

/-! ## Record extraction (`parseJsonlLine`) -/

/-- The `message.usage` object of a session-log line (interface
`UsageData`); absent fields are `none`. -/
structure UsageData where
  input_tokens : Option Nat := none
  output_tokens : Option Nat := none
  cache_creation_input_tokens : Option Nat := none
  cache_read_input_tokens : Option Nat := none
deriving DecidableEq

/-- The `message` object of a session-log line. -/
structure MessageData where
  model : Option String := none
  usage : Option UsageData := none
deriving DecidableEq

/-- The fields of a parsed JSON value that `parseJsonlLine` reads
(interface `JsonlEntry`); a JSON value lacking a field maps to
`none`. -/
structure JsonlEntry where
  type : Option String := none
  sessionId : Option String := none
  timestamp : Option String := none
  message : Option MessageData := none
deriving DecidableEq

/-- A normalized usage record (interface `ParsedRecord`). -/
structure ParsedRecord where
  sessionId : String
  timestamp : String
  model : String
  inputTokens : Nat
  outputTokens : Nat
  cacheReadTokens : Nat
  cacheCreationTokens : Nat
deriving DecidableEq

/-- The outcome of parsing one line (interface `StreamResult`): at most
one of the three fields is set; all unset is the silent skip. -/
structure StreamResult where
  record : Option ParsedRecord := none
  parseError : Bool := false
  missingFields : Bool := false
deriving DecidableEq

/-- The test `!line.trim()`: the line is empty or all whitespace. -/
def isBlankLine (line : String) : Bool :=
  line.data.all (fun c => c.isWhitespace)

/-- JavaScript string falsiness (`!s`): absent or empty. -/
def strFalsy : Option String → Bool
  | none => true
  | some s => s == ""

/-- `entry.message?.usage`. -/
def usageOf (entry : JsonlEntry) : Option UsageData :=
  entry.message.bind (fun m => m.usage)

/-- `entry.message.model`. -/
def modelOf (entry : JsonlEntry) : Option String :=
  entry.message.bind (fun m => m.model)

/-- The test `!timestamp || !sessionId || !model` of the source. -/
def falsyE (entry : JsonlEntry) : Bool :=
  strFalsy entry.timestamp || strFalsy entry.sessionId || strFalsy (modelOf entry)

/-- The timestamp string handed to `new Date(...)` (present and
non-empty whenever `falsyE` is false). -/
def tsOf (entry : JsonlEntry) : String :=
  entry.timestamp.getD ""

/-- The test `sinceDate && entryDate < sinceDate`. -/
def cutBySince (sinceDate : Option Int) (entryDate : Int) : Bool :=
  match sinceDate with
  | some s => decide (entryDate < s)
  | none => false

/-- The `totalTokens` sum of the source, each absent field defaulting
to 0 (`|| 0`). -/
def tokensTotal (usage : UsageData) : Nat :=
  usage.input_tokens.getD 0 + usage.output_tokens.getD 0 +
    usage.cache_read_input_tokens.getD 0 + usage.cache_creation_input_tokens.getD 0

/-- The record literal returned by the source on success. -/
def recOf (entry : JsonlEntry) (usage : UsageData) : ParsedRecord :=
  { sessionId := entry.sessionId.getD ""
    timestamp := entry.timestamp.getD ""
    model := (modelOf entry).getD ""
    inputTokens := usage.input_tokens.getD 0
    outputTokens := usage.output_tokens.getD 0
    cacheReadTokens := usage.cache_read_input_tokens.getD 0
    cacheCreationTokens := usage.cache_creation_input_tokens.getD 0 }

/-- `parseJsonlLine` of the backfill command.  `jsonParse` models
`JSON.parse` projected onto the consumed fields (`none` is a syntax
error); `parseDate` models `new Date(s).getTime()` (`none` is a
non-finite result, `some t` the finite millisecond instant); `sinceDate`
is the optional cutoff in milliseconds. -/
def parseJsonlLine (jsonParse : String → Option JsonlEntry)
    (parseDate : String → Option Int) (line : String)
    (sinceDate : Option Int) : StreamResult :=
  if isBlankLine line then {} else
  match jsonParse line with
  | none => { parseError := true }
  | some entry =>
      if entry.type ≠ some "assistant" then {} else
      match usageOf entry with
      | none => {}
      | some usage =>
          if falsyE entry then { missingFields := true }
          else
            match parseDate (tsOf entry) with
            | none => {}
            | some entryDate =>
                if cutBySince sinceDate entryDate then {}
                else if tokensTotal usage = 0 then {}
                else { record := some (recOf entry usage) }

/-! ## Statistics (`calculateStatistics`) -/

/-- Aggregate statistics (interface `RecordStatistics`). -/
structure RecordStatistics where
  totalRecords : Nat
  oldestTimestamp : String
  newestTimestamp : String
  totalInputTokens : Nat
  totalOutputTokens : Nat
  totalCacheReadTokens : Nat
  totalCacheCreationTokens : Nat
deriving DecidableEq

/-- `calculateStatistics` of the backfill command.  `pd` models
`new Date(s).getTime()`; the claim under verification only concerns
record lists whose timestamps parse to finite instants, so the parse is
modelled as a total function into millisecond values.  The source sorts
a copy of the record list by parsed timestamp and reads the first and
last element; the sums are left folds as in `Array.prototype.reduce`. -/
def calculateStatistics (pd : String → Int) (records : List ParsedRecord) :
    RecordStatistics :=
  match records with
  | [] => ⟨0, "", "", 0, 0, 0, 0⟩
  | _ :: _ =>
      let sorted := List.insertionSort
        (fun a b => pd a.timestamp ≤ pd b.timestamp) records
      { totalRecords := records.length
        oldestTimestamp := (sorted.head?.map (fun r => r.timestamp)).getD ""
        newestTimestamp := (sorted.getLast?.map (fun r => r.timestamp)).getD ""
        totalInputTokens := records.foldl (fun sum r => sum + r.inputTokens) 0
        totalOutputTokens := records.foldl (fun sum r => sum + r.outputTokens) 0
        totalCacheReadTokens := records.foldl (fun sum r => sum + r.cacheReadTokens) 0
        totalCacheCreationTokens :=
          records.foldl (fun sum r => sum + r.cacheCreationTokens) 0 }

/-! ## File discovery (`findJsonlFiles`)

The filesystem under a directory is modelled as a tree: a directory
listing either fails with an error message (what `readdir` throws) or
yields entries, each a regular file, a subdirectory with its own
listing, or another kind of entry (neither `isDirectory` nor
`isFile`). -/

/-- One directory entry as seen by `readdir(dir, withFileTypes)`. -/
inductive FsEntry where
  | file (name : String)
  | dir (name : String) (listing : Except String (List FsEntry))
  | other (name : String)

/-- The test `name.endsWith(pat)`, via the character lists. -/
def endsWithStr (pat s : String) : Bool :=
  startsWithChars pat.data.reverse s.data.reverse

/-- The walk over the entries of one readable directory: files named
`*.jsonl` are collected with their full path, subdirectories are
recursed into, and an unreadable subdirectory listing appends one
`"<dir>: <message>"` string to the error accumulator and the walk
continues with the remaining siblings. -/
def walkEntries (dirPath : String) : List FsEntry → List String →
    List String × List String
  | [], errors => ([], errors)
  | FsEntry.file name :: rest, errors =>
      let restR := walkEntries dirPath rest errors
      ((if endsWithStr ".jsonl" name then [dirPath ++ "/" ++ name] else []) ++
        restR.1, restR.2)
  | FsEntry.dir name listing :: rest, errors =>
      let fullPath := dirPath ++ "/" ++ name
      let sub :=
        match listing with
        | Except.error msg => (([] : List String), errors ++ [fullPath ++ ": " ++ msg])
        | Except.ok entries => walkEntries fullPath entries errors
      let restR := walkEntries dirPath rest sub.2
      (sub.1 ++ restR.1, restR.2)
  | FsEntry.other _ :: rest, errors => walkEntries dirPath rest errors

/-- `findJsonlFiles` of the backfill command, on the modelled tree: the
recursive walk starting from the listing of the root directory, with an
error accumulator (the source's shared `errors` array, initially
empty at the top-level call). -/
def findJsonlFiles (dirPath : String) (listing : Except String (List FsEntry))
    (errors : List String) : List String × List String :=
  match listing with
  | Except.error msg => ([], errors ++ [dirPath ++ ": " ++ msg])
  | Except.ok entries => walkEntries dirPath entries errors

/-- Specification-side collection (from the spec's words): exactly the
regular files whose names end in `.jsonl`, in directory-traversal
order, ignoring errors entirely. -/
def jsonlFilesSpec (dirPath : String) : List FsEntry → List String
  | [] => []
  | FsEntry.file name :: rest =>
      (if endsWithStr ".jsonl" name then [dirPath ++ "/" ++ name] else []) ++
        jsonlFilesSpec dirPath rest
  | FsEntry.dir name listing :: rest =>
      (match listing with
       | Except.error _ => []
       | Except.ok entries => jsonlFilesSpec (dirPath ++ "/" ++ name) entries) ++
        jsonlFilesSpec dirPath rest
  | FsEntry.other _ :: rest => jsonlFilesSpec dirPath rest

/-- Specification-side error collection (from the spec's words): one
`"<dir>: <message>"` string per unreadable directory, in traversal
order. -/
def dirErrorsSpec (dirPath : String) : List FsEntry → List String
  | [] => []
  | FsEntry.file _ :: rest => dirErrorsSpec dirPath rest
  | FsEntry.dir name listing :: rest =>
      (match listing with
       | Except.error msg => [dirPath ++ "/" ++ name ++ ": " ++ msg]
       | Except.ok entries => dirErrorsSpec (dirPath ++ "/" ++ name) entries) ++
        dirErrorsSpec dirPath rest
  | FsEntry.other _ :: rest => dirErrorsSpec dirPath rest

/-- The number of unreadable directory listings among the entries,
recursively. -/
def unreadableCount : List FsEntry → Nat
  | [] => 0
  | FsEntry.file _ :: rest => unreadableCount rest
  | FsEntry.dir _ listing :: rest =>
      (match listing with
       | Except.error _ => 1
       | Except.ok entries => unreadableCount entries) + unreadableCount rest
  | FsEntry.other _ :: rest => unreadableCount rest

/-- Specification-side files of a root call: nothing when the root
listing is unreadable. -/
def jsonlFilesSpecTop (dirPath : String) : Except String (List FsEntry) → List String
  | Except.error _ => []
  | Except.ok entries => jsonlFilesSpec dirPath entries

/-- Specification-side errors of a root call: one entry for an
unreadable root. -/
def dirErrorsSpecTop (dirPath : String) : Except String (List FsEntry) → List String
  | Except.error msg => [dirPath ++ ": " ++ msg]
  | Except.ok entries => dirErrorsSpec dirPath entries

/-- The number of unreadable directory listings of a root call,
the root itself included. -/
def unreadableCountTop : Except String (List FsEntry) → Nat
  | Except.error _ => 1
  | Except.ok entries => unreadableCount entries

/-! ## The batch send loop of `backfillCommand` -/

/-- An observable step of the send phase: one batch-level delivery call
(with its batch number and batch) or one inter-batch delay sleep. -/
inductive SendEvent where
  | call (batchNumber : Nat) (batch : List ParsedRecord)
  | wait (ms : Nat)
deriving DecidableEq

/-- The running counters of the send loop. -/
structure SendTotals where
  sentBatches : Nat := 0
  sentRecords : Nat := 0
  permanentlyFailedBatches : Nat := 0
  totalRetryAttempts : Nat := 0
  failedBatchDetails : List (Nat × String) := []
deriving DecidableEq

/-- `result.error || "Unknown error"` (JavaScript falsiness: absent or
empty). -/
def errorOrUnknown : Option String → String
  | none => "Unknown error"
  | some e => if e == "" then "Unknown error" else e

/-- The send loop of `backfillCommand` (`for i += batchSize` over the
accumulated records): per batch one delivery call, counter updates from
its result, and a delay sleep exactly when records remain.  The
batch-level delivery results are abstracted by `results` (indexed by
batch number); the first component of the value is the trace of calls
and sleeps in program order. -/
def sendPhaseGo (results : Nat → RetryResult) (bs delayMs : Nat) :
    List ParsedRecord → Nat → SendTotals → List SendEvent × SendTotals
  | [], _, st => ([], st)
  | x :: xs, batchNumber, st =>
      let batch := x :: xs.take (bs - 1)
      let rest := xs.drop (bs - 1)
      let result := results batchNumber
      let st1 := { st with totalRetryAttempts := st.totalRetryAttempts + result.attempts }
      let st2 :=
        if result.success then
          { st1 with sentBatches := st1.sentBatches + 1,
                     sentRecords := st1.sentRecords + batch.length }
        else
          { st1 with permanentlyFailedBatches := st1.permanentlyFailedBatches + 1,
                     failedBatchDetails := st1.failedBatchDetails ++
                       [(batchNumber, errorOrUnknown result.error)] }
      let next := sendPhaseGo results bs delayMs rest (batchNumber + 1) st2
      (SendEvent.call batchNumber batch ::
        ((if rest.isEmpty then [] else [SendEvent.wait delayMs]) ++ next.1), next.2)
  termination_by l => l.length
  decreasing_by simp [List.length_drop]; omega

/-- The send phase of `backfillCommand`: the loop starting at batch
number 1 with zeroed counters. -/
def sendPhase (results : Nat → RetryResult) (bs delayMs : Nat)
    (records : List ParsedRecord) : List SendEvent × SendTotals :=
  sendPhaseGo results bs delayMs records 1 {}

/-- Specification-side partition (from the spec's words): consecutive
batches of `bs` records, the last possibly smaller. -/
def chunksSpec (bs : Nat) : List ParsedRecord → List (List ParsedRecord)
  | [] => []
  | x :: xs => (x :: xs.take (bs - 1)) :: chunksSpec bs (xs.drop (bs - 1))
  termination_by l => l.length
  decreasing_by simp [List.length_drop]; omega

/-- Specification-side trace: one call per batch with consecutive batch
numbers, a delay sleep exactly between consecutive batches. -/
def traceSpec (delayMs : Nat) : List (List ParsedRecord) → Nat → List SendEvent
  | [], _ => []
  | [b], n => [SendEvent.call n b]
  | b :: b2 :: rest, n =>
      SendEvent.call n b :: SendEvent.wait delayMs ::
        traceSpec delayMs (b2 :: rest) (n + 1)

/-- Number of batch-level delivery calls in a trace. -/
def countCallEvents (evs : List SendEvent) : Nat :=
  evs.countP fun e => match e with
    | SendEvent.call _ _ => true
    | _ => false

/-- Number of inter-batch delay sleeps in a trace. -/
def countWaitEvents (evs : List SendEvent) : Nat :=
  evs.countP fun e => match e with
    | SendEvent.wait _ => true
    | _ => false

/-! ## Cost multiplier resolution (src/utils/constants.ts and
`backfillCommand`) -/

/-- The subscription tiers of `SUBSCRIPTION_TIER_CONFIG`. -/
inductive SubscriptionTier where
  | pro
  | max_5x
  | max_20x
  | team_premium
  | enterprise
  | api
deriving DecidableEq

/-- `getCostMultiplier` of src/utils/constants.ts: the tier table's
multiplier. -/
def getCostMultiplier : SubscriptionTier → Rat
  | SubscriptionTier.pro => 0.16
  | SubscriptionTier.max_5x => 0.16
  | SubscriptionTier.max_20x => 0.08
  | SubscriptionTier.team_premium => 0.24
  | SubscriptionTier.enterprise => 0.05
  | SubscriptionTier.api => 1

/-- The cost-multiplier resolution of `backfillCommand`:
`config.costMultiplierOverride ?? (config.subscriptionTier ?
getCostMultiplier(tier) : 0.08)`.  Nullish coalescing keeps an explicit
`0` override; an absent tier falls back to the hardcoded 0.08. -/
def resolveCostMultiplier (costMultiplierOverride : Option Rat)
    (subscriptionTier : Option SubscriptionTier) : Rat :=
  match costMultiplierOverride with
  | some m => m
  | none =>
      match subscriptionTier with
      | some t => getCostMultiplier t
      | none => 0.08

/-- The known test vector of the spec and of tests/unit/hashing.test.ts. -/
def knownVector : TransactionIdComponents :=
  ⟨"5345477c-26de-46ed-8eb1-d1deea0ee61f", "2026-01-13T15:15:09.790Z",
   "claude-opus-4-5-20251101", 100, 50, 1000, 500⟩

/-! ## Theorems -/

theorem length_bytesToHexChars (bs : List Nat) :
    (bytesToHexChars bs).length = 2 * bs.length := by
  induction bs with
  | nil => rfl
  | cons b rest ih =>
      simp [bytesToHexChars, byteToHex] at ih ⊢
      omega

theorem length_sha256 (msg : List Nat) : (sha256 msg).length = 32 := rfl

theorem hexDigitChar_isLowerHex : ∀ n < 16, isLowerHexDigit (hexDigitChar n) = true := by
  decide

theorem byteToHex_isLowerHex (b : Nat) :
    ∀ ch ∈ byteToHex b, isLowerHexDigit ch = true := by
  intro ch hch
  simp only [byteToHex, List.mem_cons, List.not_mem_nil, or_false] at hch
  rcases hch with h | h <;> subst h <;>
    exact hexDigitChar_isLowerHex _ (Nat.mod_lt _ (by norm_num))

theorem bytesToHexChars_isLowerHex (bs : List Nat) :
    ∀ ch ∈ bytesToHexChars bs, isLowerHexDigit ch = true := by
  intro ch hch
  simp only [bytesToHexChars, List.mem_flatten, List.mem_map] at hch
  obtain ⟨l, ⟨b, _, hb⟩, hchl⟩ := hch
  exact byteToHex_isLowerHex b ch (hb ▸ hchl)

/-- Claim C1: `generateTransactionId` is the first 32 characters of the
lowercase hex SHA-256 digest of the pipe-joined components in the fixed
order sessionId, timestamp, model, inputTokens, outputTokens,
cacheReadTokens, cacheCreationTokens; the result is a 32-character
lowercase hex string; and the function is deterministic. -/
theorem generateTransactionId_correct (c : TransactionIdComponents) :
    generateTransactionId c =
      String.mk ((bytesToHexChars (sha256 (strToBytes (String.intercalate "|"
        [c.sessionId, c.timestamp, c.model, Nat.repr c.inputTokens,
         Nat.repr c.outputTokens, Nat.repr c.cacheReadTokens,
         Nat.repr c.cacheCreationTokens])))).take 32) ∧
    (generateTransactionId c).length = 32 ∧
    (∀ ch ∈ (generateTransactionId c).data, isLowerHexDigit ch = true) ∧
    generateTransactionId c = generateTransactionId c := by
  refine ⟨rfl, ?_, ?_, rfl⟩
  · show ((bytesToHexChars (sha256 (strToBytes (joinPipe c)))).take 32).length = 32
    rw [List.length_take, length_bytesToHexChars, length_sha256]
    rfl
  · intro ch hch
    exact bytesToHexChars_isLowerHex _ ch (List.take_subset _ _ hch)

set_option maxRecDepth 400000 in
/-- Claim C5 counterexample: on the documented known vector the first 32
hex characters of the transaction id are not the 31-character string
given in the claim (the digest continues with a final `2`). -/
theorem knownVector_txid_ne_claimed :
    (generateTransactionId knownVector).take 32 ≠
      "a4ae0241320cd35508c022af0142438" := by
  decide

set_option maxRecDepth 400000 in
/-- Claim C5 amended: on the known vector
`{sessionId: "5345477c-26de-46ed-8eb1-d1deea0ee61f",
timestamp: "2026-01-13T15:15:09.790Z", model: "claude-opus-4-5-20251101",
inputTokens: 100, outputTokens: 50, cacheReadTokens: 1000,
cacheCreationTokens: 500}` the transaction id (and hence its first 32
hex characters) is exactly `a4ae0241320cd35508c022af01424382`. -/
theorem knownVector_txid :
    generateTransactionId knownVector = "a4ae0241320cd35508c022af01424382" := by
  decide

/-- Claim C2: classification of the extracted status — 429 is
retryable, other statuses in `[400,500)` are not, statuses at or above
500 are, and a message with no extractable status is retryable. -/
theorem isRetryableError_classification (msg : String) :
    (extractStatus msg.data = some 429 → isRetryableError msg = true) ∧
    (∀ s, extractStatus msg.data = some s → 400 ≤ s → s < 500 → s ≠ 429 →
      isRetryableError msg = false) ∧
    (∀ s, extractStatus msg.data = some s → 500 ≤ s → isRetryableError msg = true) ∧
    (extractStatus msg.data = none → isRetryableError msg = true) := by
  refine ⟨?_, ?_, ?_, ?_⟩
  · intro h
    simp [isRetryableError, h]
  · intro s h h4 h5 hne
    have h429 : (s == 429) = false := by simp [hne]
    simp [isRetryableError, h, h429, h4, h5]
  · intro s h h5
    have h429 : (s == 429) = false := by simp; omega
    have hlt : ¬(s < 500) := by omega
    simp [isRetryableError, h, h429, hlt]
  · intro h
    simp [isRetryableError, h]

/-- Claim C2 witness: each branch of the classification at a concrete
message. -/
theorem isRetryableError_classification_witness :
    isRetryableError "OTLP request failed: 429 Too Many Requests" = true ∧
    isRetryableError "OTLP request failed: 404 Not Found" = false ∧
    isRetryableError "OTLP request failed: 503 Service Unavailable" = true ∧
    isRetryableError "fetch failed" = true :=
  ⟨(isRetryableError_classification _).1 (by decide),
   (isRetryableError_classification _).2.1 404 (by decide) (by decide) (by decide)
     (by decide),
   (isRetryableError_classification _).2.2.1 503 (by decide) (by decide),
   (isRetryableError_classification _).2.2.2 (by decide)⟩

/-- Claim C10: the status is extracted only from the exact pattern
`"OTLP request failed: "` followed by three digits; any message without
that pattern is classified retryable, even `"HTTP 401 unauthorized"`
which embeds a non-retryable status in another form. -/
theorem isRetryableError_pattern_only (msg : String) :
    (extractStatus msg.data = none → isRetryableError msg = true) ∧
    extractStatus "HTTP 401 unauthorized".data = none ∧
    isRetryableError "HTTP 401 unauthorized" = true := by
  refine ⟨?_, by decide, by decide⟩
  intro h
  simp [isRetryableError, h]

/-- Claim C10 witness: a message with no extractable status, classified
retryable through the main theorem. -/
theorem isRetryableError_pattern_only_witness :
    isRetryableError "connection reset by peer" = true :=
  (isRetryableError_pattern_only "connection reset by peer").1 (by decide)

theorem sendRetryGo_success (deliver : Nat → Option String) (maxRetries : Nat) :
    ∀ j attempt,
      (∀ i, attempt ≤ i → i < attempt + j → retryFailsB deliver i = true) →
      deliver (attempt + j) = none → attempt + j < maxRetries →
      sendBatchWithRetryGo deliver maxRetries (maxRetries - attempt) attempt =
        ({ success := true, attempts := attempt + j + 1 },
         (List.range' attempt j).map backoffMs) := by
  intro j
  induction j with
  | zero =>
      intro attempt _ hdel hlt
      obtain ⟨f, hf⟩ : ∃ f, maxRetries - attempt = f + 1 :=
        ⟨maxRetries - attempt - 1, by omega⟩
      rw [hf]
      simp only [Nat.add_zero] at hdel
      simp [sendBatchWithRetryGo, hdel, List.range']
  | succ j ih =>
      intro attempt hfails hdel hlt
      have h0 : retryFailsB deliver attempt = true :=
        hfails attempt (Nat.le_refl _) (by omega)
      cases hda : deliver attempt with
      | none => rw [retryFailsB, hda] at h0; exact absurd h0 (by simp)
      | some e =>
          have hretry : isRetryableError (sanitizeErrorMessage e) = true := by
            rw [retryFailsB, hda] at h0; exact h0
          obtain ⟨f, hf⟩ : ∃ f, maxRetries - attempt = f + 1 :=
            ⟨maxRetries - attempt - 1, by omega⟩
          have hflt : attempt < maxRetries - 1 := by omega
          have hfm : f = maxRetries - (attempt + 1) := by omega
          have hih := ih (attempt + 1)
            (fun i hi1 hi2 => hfails i (by omega) (by omega))
            (by rw [show attempt + 1 + j = attempt + (j + 1) by omega]; exact hdel)
            (by omega)
          rw [hf, sendBatchWithRetryGo]
          simp only [hda, hretry, if_pos hflt, if_true]
          rw [hfm, hih]
          have hatt : attempt + 1 + j + 1 = attempt + (j + 1) + 1 := by omega
          simp [hatt, List.range']

theorem sendRetryGo_nonretryable (deliver : Nat → Option String) (maxRetries : Nat) :
    ∀ j attempt e,
      (∀ i, attempt ≤ i → i < attempt + j → retryFailsB deliver i = true) →
      deliver (attempt + j) = some e →
      isRetryableError (sanitizeErrorMessage e) = false →
      attempt + j < maxRetries →
      sendBatchWithRetryGo deliver maxRetries (maxRetries - attempt) attempt =
        ({ success := false, attempts := attempt + j + 1,
           error := some (sanitizeErrorMessage e) },
         (List.range' attempt j).map backoffMs) := by
  intro j
  induction j with
  | zero =>
      intro attempt e _ hdel hnr hlt
      obtain ⟨f, hf⟩ : ∃ f, maxRetries - attempt = f + 1 :=
        ⟨maxRetries - attempt - 1, by omega⟩
      rw [hf]
      simp only [Nat.add_zero] at hdel
      simp [sendBatchWithRetryGo, hdel, hnr, List.range']
  | succ j ih =>
      intro attempt e hfails hdel hnr hlt
      have h0 : retryFailsB deliver attempt = true :=
        hfails attempt (Nat.le_refl _) (by omega)
      cases hda : deliver attempt with
      | none => rw [retryFailsB, hda] at h0; exact absurd h0 (by simp)
      | some e0 =>
          have hretry : isRetryableError (sanitizeErrorMessage e0) = true := by
            rw [retryFailsB, hda] at h0; exact h0
          obtain ⟨f, hf⟩ : ∃ f, maxRetries - attempt = f + 1 :=
            ⟨maxRetries - attempt - 1, by omega⟩
          have hflt : attempt < maxRetries - 1 := by omega
          have hfm : f = maxRetries - (attempt + 1) := by omega
          have hih := ih (attempt + 1) e
            (fun i hi1 hi2 => hfails i (by omega) (by omega))
            (by rw [show attempt + 1 + j = attempt + (j + 1) by omega]; exact hdel)
            hnr (by omega)
          rw [hf, sendBatchWithRetryGo]
          simp only [hda, hretry, if_pos hflt, if_true]
          rw [hfm, hih]
          have hatt : attempt + 1 + j + 1 = attempt + (j + 1) + 1 := by omega
          simp [hatt, List.range']

theorem sendRetryGo_exhaust (deliver : Nat → Option String) (maxRetries : Nat) :
    ∀ j attempt e,
      (∀ i, attempt ≤ i → i < attempt + j + 1 → retryFailsB deliver i = true) →
      attempt + j + 1 = maxRetries → deliver (attempt + j) = some e →
      sendBatchWithRetryGo deliver maxRetries (maxRetries - attempt) attempt =
        ({ success := false, attempts := maxRetries,
           error := some (sanitizeErrorMessage e) },
         (List.range' attempt j).map backoffMs) := by
  intro j
  induction j with
  | zero =>
      intro attempt e hfails heq hdel
      have h0 : retryFailsB deliver attempt = true :=
        hfails attempt (Nat.le_refl _) (by omega)
      simp only [Nat.add_zero] at hdel
      have hretry : isRetryableError (sanitizeErrorMessage e) = true := by
        rw [retryFailsB, hdel] at h0; exact h0
      have hf : maxRetries - attempt = 0 + 1 := by omega
      have hnlt : ¬(attempt < maxRetries - 1) := by omega
      rw [hf, sendBatchWithRetryGo]
      simp [hdel, hretry, hnlt, List.range']
  | succ j ih =>
      intro attempt e hfails heq hdel
      have h0 : retryFailsB deliver attempt = true :=
        hfails attempt (Nat.le_refl _) (by omega)
      cases hda : deliver attempt with
      | none => rw [retryFailsB, hda] at h0; exact absurd h0 (by simp)
      | some e0 =>
          have hretry : isRetryableError (sanitizeErrorMessage e0) = true := by
            rw [retryFailsB, hda] at h0; exact h0
          obtain ⟨f, hf⟩ : ∃ f, maxRetries - attempt = f + 1 :=
            ⟨maxRetries - attempt - 1, by omega⟩
          have hflt : attempt < maxRetries - 1 := by omega
          have hfm : f = maxRetries - (attempt + 1) := by omega
          have hih := ih (attempt + 1) e
            (fun i hi1 hi2 => hfails i (by omega) (by omega))
            (by omega)
            (by rw [show attempt + 1 + j = attempt + (j + 1) by omega]; exact hdel)
          rw [hf, sendBatchWithRetryGo]
          simp only [hda, hretry, if_pos hflt, if_true]
          rw [hfm, hih]
          simp [List.range']

/-- Claim C3: the retry state machine — a non-retryable failure at
attempt `k` returns `{success:false, attempts:k, error:<message>}` with
no further backoff sleep (the slept delays are exactly those before
attempts `2..k`); exhausting `maxRetries` retryable failures returns
`{success:false, attempts:maxRetries}` with the last error message;
success at attempt `k` returns `{success:true, attempts:k}`; and the
sleep before the retry after the 0-based attempt `i` is
`backoffMs i = 1000 * 2 ^ i` milliseconds. -/
theorem sendBatchWithRetry_spec (deliver : Nat → Option String) (maxRetries : Nat) :
    (∀ k e, 1 ≤ k → k ≤ maxRetries →
      (∀ i, i < k - 1 → retryFailsB deliver i = true) →
      deliver (k - 1) = some e →
      isRetryableError (sanitizeErrorMessage e) = false →
      sendBatchWithRetry deliver maxRetries =
        ({ success := false, attempts := k, error := some (sanitizeErrorMessage e) },
         (List.range (k - 1)).map backoffMs)) ∧
    (∀ e, 1 ≤ maxRetries →
      (∀ i, i < maxRetries → retryFailsB deliver i = true) →
      deliver (maxRetries - 1) = some e →
      sendBatchWithRetry deliver maxRetries =
        ({ success := false, attempts := maxRetries,
           error := some (sanitizeErrorMessage e) },
         (List.range (maxRetries - 1)).map backoffMs)) ∧
    (∀ k, 1 ≤ k → k ≤ maxRetries →
      (∀ i, i < k - 1 → retryFailsB deliver i = true) →
      deliver (k - 1) = none →
      sendBatchWithRetry deliver maxRetries =
        ({ success := true, attempts := k }, (List.range (k - 1)).map backoffMs)) := by
  refine ⟨?_, ?_, ?_⟩
  · intro k e hk1 hkm hfails hdel hnr
    have h := sendRetryGo_nonretryable deliver maxRetries (k - 1) 0 e
      (fun i hi1 hi2 => hfails i (by omega)) (by simpa using hdel) hnr (by omega)
    rw [Nat.sub_zero] at h
    unfold sendBatchWithRetry
    rw [h, List.range_eq_range']
    have hk : 0 + (k - 1) + 1 = k := by omega
    rw [hk]
  · intro e hm hfails hdel
    have h := sendRetryGo_exhaust deliver maxRetries (maxRetries - 1) 0 e
      (fun i hi1 hi2 => hfails i (by omega)) (by omega) (by simpa using hdel)
    rw [Nat.sub_zero] at h
    unfold sendBatchWithRetry
    rw [h, List.range_eq_range']
  · intro k hk1 hkm hfails hdel
    have h := sendRetryGo_success deliver maxRetries (k - 1) 0
      (fun i hi1 hi2 => hfails i (by omega)) (by simpa using hdel) (by omega)
    rw [Nat.sub_zero] at h
    unfold sendBatchWithRetry
    rw [h, List.range_eq_range']
    have hk : 0 + (k - 1) + 1 = k := by omega
    rw [hk]

/-- Claim C3 witness: the three scenarios at concrete delivery
functions — two retryable failures then success with `maxRetries = 3`
gives `{success:true, attempts:3}` after sleeping 1000 and 2000 ms; an
immediate non-retryable 401 failure gives
`{success:false, attempts:1}` with no sleep; three retryable failures
give `{success:false, attempts:3}` with the last message. -/
theorem sendBatchWithRetry_spec_witness :
    sendBatchWithRetry
        (fun i => if i < 2 then some "OTLP request failed: 503 upstream" else none)
        3 =
      ({ success := true, attempts := 3 }, [1000, 2000]) ∧
    sendBatchWithRetry (fun _ => some "OTLP request failed: 401 Unauthorized") 3 =
      ({ success := false, attempts := 1,
         error := some "OTLP request failed: 401 Unauthorized" }, []) ∧
    sendBatchWithRetry (fun _ => some "fetch failed") 3 =
      ({ success := false, attempts := 3, error := some "fetch failed" },
       [1000, 2000]) := by
  refine ⟨?_, ?_, ?_⟩
  · have h := (sendBatchWithRetry_spec
      (fun i => if i < 2 then some "OTLP request failed: 503 upstream" else none)
      3).2.2 3 (by decide) (by decide) (by decide) (by decide)
    rw [h]; decide
  · have h := (sendBatchWithRetry_spec
      (fun _ => some "OTLP request failed: 401 Unauthorized") 3).1 1
      "OTLP request failed: 401 Unauthorized" (by decide) (by decide) (by decide)
      (by decide) (by decide)
    rw [h]; decide
  · have h := (sendBatchWithRetry_spec (fun _ => some "fetch failed") 3).2.1
      "fetch failed" (by decide) (by decide) (by decide)
    rw [h]; decide

/-- Claim C9: cost multiplier precedence — an explicit override wins
even when it is 0, a configured tier selects the tier table value, and
otherwise the hardcoded fallback 0.08 is used. -/
theorem resolveCostMultiplier_precedence :
    (∀ (m : Rat) (t : Option SubscriptionTier),
      resolveCostMultiplier (some m) t = m) ∧
    (∀ t : Option SubscriptionTier, resolveCostMultiplier (some 0) t = 0) ∧
    (∀ t : SubscriptionTier,
      resolveCostMultiplier none (some t) = getCostMultiplier t) ∧
    resolveCostMultiplier none none = 0.08 :=
  ⟨fun _ _ => rfl, fun _ => rfl, fun _ => rfl, rfl⟩

theorem foldl_add_map_sum (f : ParsedRecord → Nat) :
    ∀ (l : List ParsedRecord) (init : Nat),
      l.foldl (fun sum r => sum + f r) init = init + (l.map f).sum := by
  intro l
  induction l with
  | nil => intro init; simp
  | cons x xs ih => intro init; simp [ih, Nat.add_assoc]

theorem sorted_head?_min (p : String → Int) :
    ∀ (l : List ParsedRecord) (y : ParsedRecord),
      List.Sorted (fun a b => p a.timestamp ≤ p b.timestamp) l →
      l.head? = some y → y ∈ l ∧ ∀ x ∈ l, p y.timestamp ≤ p x.timestamp := by
  intro l y hs hh
  cases l with
  | nil => cases hh
  | cons a t =>
      have hya : a = y := by simpa using hh
      subst hya
      refine ⟨List.mem_cons_self _ _, ?_⟩
      intro x hx
      rcases List.mem_cons.mp hx with hxa | hxt
      · rw [hxa]
      · exact List.rel_of_sorted_cons hs x hxt

theorem sorted_getLast?_max (p : String → Int) :
    ∀ (l : List ParsedRecord) (y : ParsedRecord),
      List.Sorted (fun a b => p a.timestamp ≤ p b.timestamp) l →
      l.getLast? = some y → y ∈ l ∧ ∀ x ∈ l, p x.timestamp ≤ p y.timestamp := by
  intro l
  induction l with
  | nil => intro y _ hh; cases hh
  | cons a t ih =>
      intro y hs hh
      cases t with
      | nil =>
          have hya : a = y := by simpa using hh
          subst hya
          refine ⟨List.mem_cons_self _ _, ?_⟩
          intro x hx
          have hxa : x = a := by simpa using hx
          rw [hxa]
      | cons b t2 =>
          rw [List.getLast?_cons_cons] at hh
          have htail := ih y ((List.sorted_cons.mp hs).2) hh
          refine ⟨List.mem_cons_of_mem _ htail.1, ?_⟩
          intro x hx
          rcases List.mem_cons.mp hx with hxa | hxt
          · rw [hxa]
            exact List.rel_of_sorted_cons hs y htail.1
          · exact htail.2 x hxt

/-- Claim C7: `calculateStatistics` is pure and deterministic; on `[]`
it returns all-zero numerics and empty-string timestamps; on a
non-empty list it returns the list length, the four arithmetic token
sums, and the timestamp strings of records attaining the minimum and
maximum parsed timestamp. -/
theorem calculateStatistics_spec (pd : String → Int) :
    calculateStatistics pd [] = ⟨0, "", "", 0, 0, 0, 0⟩ ∧
    (∀ records : List ParsedRecord, records ≠ [] →
      ((calculateStatistics pd records).totalRecords = records.length ∧
       (calculateStatistics pd records).totalInputTokens =
         (records.map (fun r => r.inputTokens)).sum ∧
       (calculateStatistics pd records).totalOutputTokens =
         (records.map (fun r => r.outputTokens)).sum ∧
       (calculateStatistics pd records).totalCacheReadTokens =
         (records.map (fun r => r.cacheReadTokens)).sum ∧
       (calculateStatistics pd records).totalCacheCreationTokens =
         (records.map (fun r => r.cacheCreationTokens)).sum) ∧
      (∃ r ∈ records, (calculateStatistics pd records).oldestTimestamp = r.timestamp ∧
        ∀ q ∈ records, pd r.timestamp ≤ pd q.timestamp) ∧
      (∃ r ∈ records, (calculateStatistics pd records).newestTimestamp = r.timestamp ∧
        ∀ q ∈ records, pd q.timestamp ≤ pd r.timestamp)) ∧
    (∀ records, calculateStatistics pd records = calculateStatistics pd records) := by
  refine ⟨rfl, ?_, fun _ => rfl⟩
  intro records hne
  cases hrec : records with
  | nil => exact absurd hrec hne
  | cons x xs =>
      subst hrec
      haveI hTot : IsTotal ParsedRecord (fun a b => pd a.timestamp ≤ pd b.timestamp) :=
        ⟨fun a b => Int.le_total _ _⟩
      haveI hTrans : IsTrans ParsedRecord (fun a b => pd a.timestamp ≤ pd b.timestamp) :=
        ⟨fun a b c hab hbc => Int.le_trans hab hbc⟩
      have hperm := List.perm_insertionSort
        (fun a b => pd a.timestamp ≤ pd b.timestamp) (x :: xs)
      have hsorted := List.sorted_insertionSort
        (fun a b => pd a.timestamp ≤ pd b.timestamp) (x :: xs)
      have hlen := hperm.length_eq
      have hsne : List.insertionSort
          (fun a b => pd a.timestamp ≤ pd b.timestamp) (x :: xs) ≠ [] := by
        intro h0
        rw [h0] at hlen
        simp at hlen
      refine ⟨⟨?_, ?_, ?_, ?_, ?_⟩, ?_, ?_⟩
      · rfl
      · show (x :: xs).foldl (fun sum r => sum + r.inputTokens) 0 = _
        rw [foldl_add_map_sum]
        simp
      · show (x :: xs).foldl (fun sum r => sum + r.outputTokens) 0 = _
        rw [foldl_add_map_sum]
        simp
      · show (x :: xs).foldl (fun sum r => sum + r.cacheReadTokens) 0 = _
        rw [foldl_add_map_sum]
        simp
      · show (x :: xs).foldl (fun sum r => sum + r.cacheCreationTokens) 0 = _
        rw [foldl_add_map_sum]
        simp
      · cases hsl : List.insertionSort
            (fun a b => pd a.timestamp ≤ pd b.timestamp) (x :: xs) with
        | nil => exact absurd hsl hsne
        | cons s0 rest =>
            rw [hsl] at hperm hsorted
            have hmin := sorted_head?_min pd (s0 :: rest) s0 hsorted rfl
            refine ⟨s0, hperm.mem_iff.mp hmin.1, ?_,
              fun q hq => hmin.2 q (hperm.mem_iff.mpr hq)⟩
            simp only [calculateStatistics]
            rw [hsl]
            simp
      · cases hsl : List.insertionSort
            (fun a b => pd a.timestamp ≤ pd b.timestamp) (x :: xs) with
        | nil => exact absurd hsl hsne
        | cons s0 rest =>
            rw [hsl] at hperm hsorted
            have hlast : (s0 :: rest).getLast? =
                some ((s0 :: rest).getLast (List.cons_ne_nil s0 rest)) :=
              List.getLast?_eq_getLast _ _
            have hmax := sorted_getLast?_max pd (s0 :: rest) _ hsorted hlast
            refine ⟨_, hperm.mem_iff.mp hmax.1, ?_,
              fun q hq => hmax.2 q (hperm.mem_iff.mpr hq)⟩
            simp only [calculateStatistics]
            rw [hsl, hlast]
            simp

/-- Claim C7 witness: the statistics of a concrete one-record list via
the main theorem. -/
theorem calculateStatistics_spec_witness :
    (calculateStatistics (fun _ => 0)
      [⟨"s", "2026-01-13T15:15:09.790Z", "m", 1, 2, 3, 4⟩]).totalRecords = 1 ∧
    (calculateStatistics (fun _ => 0)
      [⟨"s", "2026-01-13T15:15:09.790Z", "m", 1, 2, 3, 4⟩]).totalInputTokens = 1 ∧
    (∃ r ∈ [(⟨"s", "2026-01-13T15:15:09.790Z", "m", 1, 2, 3, 4⟩ : ParsedRecord)],
      (calculateStatistics (fun _ => 0)
        [⟨"s", "2026-01-13T15:15:09.790Z", "m", 1, 2, 3, 4⟩]).oldestTimestamp =
          r.timestamp) := by
  have h := (calculateStatistics_spec (fun _ => 0)).2.1
    [⟨"s", "2026-01-13T15:15:09.790Z", "m", 1, 2, 3, 4⟩] (by simp)
  refine ⟨?_, ?_, ?_⟩
  · rw [h.1.1]; rfl
  · rw [h.1.2.1]; rfl
  · obtain ⟨r, hr, hts, _⟩ := h.2.1
    exact ⟨r, hr, hts⟩

theorem sendPhaseGo_trace (results : Nat → RetryResult) (bs delayMs : Nat) :
    ∀ (l : List ParsedRecord) (n : Nat) (st : SendTotals),
      (sendPhaseGo results bs delayMs l n st).1 =
        traceSpec delayMs (chunksSpec bs l) n
  | [], n, st => by
      simp [sendPhaseGo, chunksSpec, traceSpec]
  | x :: xs, n, st => by
      have ih := fun st2 =>
        sendPhaseGo_trace results bs delayMs (xs.drop (bs - 1)) (n + 1) st2
      cases hrest : xs.drop (bs - 1) with
      | nil =>
          simp only [sendPhaseGo, chunksSpec]
          rw [hrest]
          simp [sendPhaseGo, chunksSpec, traceSpec]
      | cons y ys =>
          simp only [hrest] at ih
          simp only [sendPhaseGo, chunksSpec]
          rw [hrest]
          have hch : chunksSpec bs (y :: ys) =
              (y :: ys.take (bs - 1)) :: chunksSpec bs (ys.drop (bs - 1)) := by
            rw [chunksSpec]
          rw [ih, hch, traceSpec]
          simp
  termination_by l => l.length
  decreasing_by simp [List.length_drop]; omega

theorem chunksSpec_flatten (bs : Nat) (hbs : 1 ≤ bs) :
    ∀ l : List ParsedRecord, (chunksSpec bs l).flatten = l
  | [] => by simp [chunksSpec]
  | x :: xs => by
      have ih := chunksSpec_flatten bs hbs (xs.drop (bs - 1))
      simp only [chunksSpec, List.flatten_cons, ih]
      simp [List.take_append_drop]
  termination_by l => l.length
  decreasing_by simp [List.length_drop]; omega

theorem chunksSpec_size (bs : Nat) (hbs : 1 ≤ bs) :
    ∀ l : List ParsedRecord, ∀ c ∈ chunksSpec bs l, c ≠ [] ∧ c.length ≤ bs
  | [] => by simp [chunksSpec]
  | x :: xs => by
      have ih := chunksSpec_size bs hbs (xs.drop (bs - 1))
      intro c hc
      simp only [chunksSpec, List.mem_cons] at hc
      rcases hc with hc | hc
      · subst hc
        refine ⟨by simp, ?_⟩
        simp only [List.length_cons]
        have h2 := List.length_take_le (bs - 1) xs
        omega
      · exact ih c hc
  termination_by l => l.length
  decreasing_by simp [List.length_drop]; omega

theorem chunksSpec_dropLast (bs : Nat) (hbs : 1 ≤ bs) :
    ∀ l : List ParsedRecord, ∀ c ∈ (chunksSpec bs l).dropLast, c.length = bs
  | [] => by simp [chunksSpec]
  | x :: xs => by
      have ih := chunksSpec_dropLast bs hbs (xs.drop (bs - 1))
      intro c hc
      cases hrest : xs.drop (bs - 1) with
      | nil =>
          rw [chunksSpec, hrest] at hc
          simp [chunksSpec] at hc
      | cons y ys =>
          rw [chunksSpec, hrest] at hc
          have hcons : chunksSpec bs (y :: ys) =
              (y :: ys.take (bs - 1)) :: chunksSpec bs (ys.drop (bs - 1)) := by
            rw [chunksSpec]
          rw [hcons, List.dropLast_cons₂, ← hcons] at hc
          rcases List.mem_cons.mp hc with hc1 | hc2
          · subst hc1
            have hlen : xs.length ≥ bs - 1 := by
              by_contra hlt
              push_neg at hlt
              have : xs.drop (bs - 1) = [] := List.drop_eq_nil_of_le (by omega)
              rw [this] at hrest
              cases hrest
            simp only [List.length_cons, List.length_take]
            omega
          · rw [← hrest] at hc2
            exact ih c hc2
  termination_by l => l.length
  decreasing_by simp [List.length_drop]; omega

theorem traceSpec_counts (delayMs : Nat) :
    ∀ (chunks : List (List ParsedRecord)) (n : Nat),
      countCallEvents (traceSpec delayMs chunks n) = chunks.length ∧
      countWaitEvents (traceSpec delayMs chunks n) = chunks.length - 1
  | [], _ => by simp [traceSpec, countCallEvents, countWaitEvents]
  | [b], _ => by simp [traceSpec, countCallEvents, countWaitEvents]
  | b :: b2 :: rest, n => by
      have ih := traceSpec_counts delayMs (b2 :: rest) (n + 1)
      simp only [traceSpec, countCallEvents, countWaitEvents, List.countP_cons] at ih ⊢
      simp at ih ⊢
      omega

theorem chunksSpec_length (bs : Nat) (hbs : 1 ≤ bs) :
    ∀ l : List ParsedRecord,
      (chunksSpec bs l).length = if l.length = 0 then 0 else (l.length - 1) / bs + 1
  | [] => by simp [chunksSpec]
  | x :: xs => by
      have ih := chunksSpec_length bs hbs (xs.drop (bs - 1))
      rw [chunksSpec]
      simp only [List.length_cons, List.length_drop] at ih ⊢
      by_cases hle : xs.length ≤ bs - 1
      · have hnil : xs.drop (bs - 1) = [] := List.drop_eq_nil_of_le hle
        rw [hnil]
        have hz : xs.length / bs = 0 := Nat.div_eq_of_lt (by omega)
        simp [chunksSpec, hz]
      · push_neg at hle
        rw [ih]
        have h1 : ¬(xs.length - (bs - 1) = 0) := by omega
        have h2 : ¬(xs.length + 1 = 0) := by omega
        rw [if_neg h1, if_neg h2]
        have hsub : xs.length - (bs - 1) - 1 = xs.length + 1 - 1 - bs := by omega
        rw [hsub]
        have hdiv := Nat.div_eq_sub_div (by omega : 0 < bs)
          (by omega : bs ≤ xs.length + 1 - 1)
        omega
  termination_by l => l.length
  decreasing_by simp [List.length_drop]; omega

/-- Claim C6: the send phase partitions the records into consecutive
batches of `batchSize` (the last possibly smaller, every other exactly
`batchSize`, and their concatenation is the record list), produces one
delivery call per batch in order with consecutive batch numbers, sleeps
the inter-batch delay exactly between consecutive batches and never
after the last, has a call/sleep trace independent of the per-batch
delivery results (a permanent batch failure never prevents later
batches), and for 150 records with batch size 100 makes exactly 2
batch-level calls and 1 delay sleep. -/
theorem backfill_sendPhase_batches (results : Nat → RetryResult)
    (bs delayMs : Nat) (records : List ParsedRecord) (hbs : 1 ≤ bs) :
    (sendPhase results bs delayMs records).1 =
      traceSpec delayMs (chunksSpec bs records) 1 ∧
    (chunksSpec bs records).flatten = records ∧
    (∀ c ∈ chunksSpec bs records, c ≠ [] ∧ c.length ≤ bs) ∧
    (∀ c ∈ (chunksSpec bs records).dropLast, c.length = bs) ∧
    countCallEvents (sendPhase results bs delayMs records).1 =
      (chunksSpec bs records).length ∧
    countWaitEvents (sendPhase results bs delayMs records).1 =
      (chunksSpec bs records).length - 1 ∧
    (∀ results2 : Nat → RetryResult,
      (sendPhase results bs delayMs records).1 =
        (sendPhase results2 bs delayMs records).1) ∧
    (records.length = 150 → bs = 100 →
      countCallEvents (sendPhase results bs delayMs records).1 = 2 ∧
      countWaitEvents (sendPhase results bs delayMs records).1 = 1) := by
  have htrace := sendPhaseGo_trace results bs delayMs records 1 {}
  have hcounts := traceSpec_counts delayMs (chunksSpec bs records) 1
  have hlen := chunksSpec_length bs hbs records
  refine ⟨htrace, chunksSpec_flatten bs hbs records, chunksSpec_size bs hbs records,
    chunksSpec_dropLast bs hbs records, ?_, ?_, ?_, ?_⟩
  · rw [sendPhase, htrace]
    exact hcounts.1
  · rw [sendPhase, htrace]
    exact hcounts.2
  · intro results2
    rw [sendPhase, htrace, sendPhase, sendPhaseGo_trace results2 bs delayMs records 1 {}]
  · intro h150 hbs100
    subst hbs100
    rw [h150] at hlen
    norm_num at hlen
    constructor
    · rw [sendPhase, htrace, hcounts.1, hlen]
    · rw [sendPhase, htrace, hcounts.2, hlen]

/-- Claim C6 witness: 150 identical records with batch size 100 produce
exactly 2 batch-level delivery calls and exactly 1 inter-batch delay
sleep, via the main theorem. -/
theorem backfill_sendPhase_batches_witness :
    countCallEvents (sendPhase (fun _ => { success := true, attempts := 1 }) 100 100
      (List.replicate 150 ⟨"s", "t", "m", 1, 0, 0, 0⟩)).1 = 2 ∧
    countWaitEvents (sendPhase (fun _ => { success := true, attempts := 1 }) 100 100
      (List.replicate 150 ⟨"s", "t", "m", 1, 0, 0, 0⟩)).1 = 1 :=
  (backfill_sendPhase_batches (fun _ => { success := true, attempts := 1 }) 100 100
    (List.replicate 150 ⟨"s", "t", "m", 1, 0, 0, 0⟩) (by norm_num)).2.2.2.2.2.2.2
    (by simp) rfl

theorem walkEntries_spec :
    ∀ (dirPath : String) (entries : List FsEntry) (errors : List String),
      walkEntries dirPath entries errors =
        (jsonlFilesSpec dirPath entries, errors ++ dirErrorsSpec dirPath entries)
  | dirPath, [], errors => by
      simp [walkEntries, jsonlFilesSpec, dirErrorsSpec]
  | dirPath, FsEntry.file name :: rest, errors => by
      have ih := walkEntries_spec dirPath rest errors
      simp [walkEntries, jsonlFilesSpec, dirErrorsSpec, ih]
  | dirPath, FsEntry.dir name (Except.error msg) :: rest, errors => by
      have ih := walkEntries_spec dirPath rest
        (errors ++ [dirPath ++ "/" ++ name ++ ": " ++ msg])
      simp [walkEntries, jsonlFilesSpec, dirErrorsSpec, ih]
  | dirPath, FsEntry.dir name (Except.ok entries2) :: rest, errors => by
      have ih1 := walkEntries_spec (dirPath ++ "/" ++ name) entries2 errors
      have ih2 := walkEntries_spec dirPath rest
        (errors ++ dirErrorsSpec (dirPath ++ "/" ++ name) entries2)
      simp [walkEntries, jsonlFilesSpec, dirErrorsSpec, ih1, ih2]
  | dirPath, FsEntry.other name :: rest, errors => by
      have ih := walkEntries_spec dirPath rest errors
      simp [walkEntries, jsonlFilesSpec, dirErrorsSpec, ih]

theorem dirErrorsSpec_length :
    ∀ (dirPath : String) (entries : List FsEntry),
      (dirErrorsSpec dirPath entries).length = unreadableCount entries
  | _, [] => by simp [dirErrorsSpec, unreadableCount]
  | dirPath, FsEntry.file name :: rest => by
      have ih := dirErrorsSpec_length dirPath rest
      simp [dirErrorsSpec, unreadableCount, ih]
  | dirPath, FsEntry.dir name (Except.error msg) :: rest => by
      have ih := dirErrorsSpec_length dirPath rest
      simp [dirErrorsSpec, unreadableCount, ih]
      omega
  | dirPath, FsEntry.dir name (Except.ok entries2) :: rest => by
      have ih1 := dirErrorsSpec_length (dirPath ++ "/" ++ name) entries2
      have ih2 := dirErrorsSpec_length dirPath rest
      simp [dirErrorsSpec, unreadableCount, ih1, ih2]
  | dirPath, FsEntry.other name :: rest => by
      have ih := dirErrorsSpec_length dirPath rest
      simp [dirErrorsSpec, unreadableCount, ih]

/-- Claim C8: `findJsonlFiles` returns exactly the regular files whose
names end in `.jsonl` in traversal order (as the specification-side
collection, which ignores errors — so an unreadable subdirectory never
hides files elsewhere), appends exactly one `"<dir>: <message>"` error
string per unreadable directory to the accumulator (their number equals
the number of unreadable directories), and always returns both lists;
illustrated on a directory of 2 matching and 1 non-matching file (2
paths, no errors) and on an unreadable root (no paths, exactly the one
error string). -/
theorem findJsonlFiles_spec (dirPath : String)
    (listing : Except String (List FsEntry)) (errors0 : List String) :
    findJsonlFiles dirPath listing errors0 =
      (jsonlFilesSpecTop dirPath listing,
       errors0 ++ dirErrorsSpecTop dirPath listing) ∧
    (dirErrorsSpecTop dirPath listing).length = unreadableCountTop listing ∧
    findJsonlFiles "/p" (Except.ok [FsEntry.file "a.jsonl", FsEntry.file "b.txt",
        FsEntry.file "c.jsonl"]) [] =
      (["/p/a.jsonl", "/p/c.jsonl"], []) ∧
    findJsonlFiles "/p" (Except.error "EACCES: permission denied") [] =
      ([], ["/p: EACCES: permission denied"]) := by
  refine ⟨?_, ?_, ?_, by simp [findJsonlFiles]⟩
  · cases listing with
    | error msg =>
        simp [findJsonlFiles, jsonlFilesSpecTop, dirErrorsSpecTop]
    | ok entries =>
        simp [findJsonlFiles, jsonlFilesSpecTop, dirErrorsSpecTop,
          walkEntries_spec dirPath entries errors0]
  · cases listing with
    | error msg => simp [dirErrorsSpecTop, unreadableCountTop]
    | ok entries =>
        simp [dirErrorsSpecTop, unreadableCountTop, dirErrorsSpec_length]
  · rw [findJsonlFiles, walkEntries_spec]
    simp [jsonlFilesSpec, dirErrorsSpec]
    decide

theorem parseJsonlLine_cases (jp : String → Option JsonlEntry)
    (pd : String → Option Int) (line : String) (since : Option Int) :
    (isBlankLine line = true ∧ parseJsonlLine jp pd line since = {}) ∨
    (isBlankLine line = false ∧ jp line = none ∧
      parseJsonlLine jp pd line since = { parseError := true }) ∨
    (isBlankLine line = false ∧ ∃ e, jp line = some e ∧
      (e.type ≠ some "assistant" ∨ usageOf e = none) ∧
      parseJsonlLine jp pd line since = {}) ∨
    (isBlankLine line = false ∧ ∃ e u, jp line = some e ∧
      e.type = some "assistant" ∧ usageOf e = some u ∧ falsyE e = true ∧
      parseJsonlLine jp pd line since = { missingFields := true }) ∨
    (isBlankLine line = false ∧ ∃ e u, jp line = some e ∧
      e.type = some "assistant" ∧ usageOf e = some u ∧ falsyE e = false ∧
      pd (tsOf e) = none ∧ parseJsonlLine jp pd line since = {}) ∨
    (isBlankLine line = false ∧ ∃ e u t s, jp line = some e ∧
      e.type = some "assistant" ∧ usageOf e = some u ∧ falsyE e = false ∧
      pd (tsOf e) = some t ∧ since = some s ∧ t < s ∧
      parseJsonlLine jp pd line since = {}) ∨
    (isBlankLine line = false ∧ ∃ e u t, jp line = some e ∧
      e.type = some "assistant" ∧ usageOf e = some u ∧ falsyE e = false ∧
      pd (tsOf e) = some t ∧ cutBySince since t = false ∧ tokensTotal u = 0 ∧
      parseJsonlLine jp pd line since = {}) ∨
    (isBlankLine line = false ∧ ∃ e u t, jp line = some e ∧
      e.type = some "assistant" ∧ usageOf e = some u ∧ falsyE e = false ∧
      pd (tsOf e) = some t ∧ cutBySince since t = false ∧ tokensTotal u ≠ 0 ∧
      parseJsonlLine jp pd line since = { record := some (recOf e u) }) := by
  by_cases hb : isBlankLine line = true
  · exact Or.inl ⟨hb, by simp [parseJsonlLine, hb]⟩
  · have hb2 : isBlankLine line = false := by simpa using hb
    cases hjp : jp line with
    | none =>
        exact Or.inr (Or.inl ⟨hb2, rfl, by simp [parseJsonlLine, hb2, hjp]⟩)
    | some e =>
        by_cases hty : e.type = some "assistant"
        · cases hu : usageOf e with
          | none =>
              refine Or.inr (Or.inr (Or.inl ⟨hb2, e, rfl, Or.inr hu, ?_⟩))
              simp [parseJsonlLine, hb2, hjp, hty, hu]
          | some u =>
              by_cases hf : falsyE e = true
              · refine Or.inr (Or.inr (Or.inr (Or.inl
                  ⟨hb2, e, u, rfl, hty, hu, hf, ?_⟩)))
                simp [parseJsonlLine, hb2, hjp, hty, hu, hf]
              · have hf2 : falsyE e = false := by simpa using hf
                cases hpd : pd (tsOf e) with
                | none =>
                    refine Or.inr (Or.inr (Or.inr (Or.inr (Or.inl
                      ⟨hb2, e, u, rfl, hty, hu, hf2, hpd, ?_⟩))))
                    simp [parseJsonlLine, hb2, hjp, hty, hu, hf2, hpd]
                | some t =>
                    by_cases hcut : cutBySince since t = true
                    · obtain ⟨s, hs, hts⟩ : ∃ s, since = some s ∧ t < s := by
                        cases since with
                        | none => simp [cutBySince] at hcut
                        | some s =>
                            exact ⟨s, rfl, by simpa [cutBySince] using hcut⟩
                      refine Or.inr (Or.inr (Or.inr (Or.inr (Or.inr (Or.inl
                        ⟨hb2, e, u, t, s, rfl, hty, hu, hf2, hpd, hs, hts, ?_⟩)))))
                      simp [parseJsonlLine, hb2, hjp, hty, hu, hf2, hpd, hcut]
                    · have hcut2 : cutBySince since t = false := by simpa using hcut
                      by_cases htok : tokensTotal u = 0
                      · refine Or.inr (Or.inr (Or.inr (Or.inr (Or.inr (Or.inr (Or.inl
                          ⟨hb2, e, u, t, rfl, hty, hu, hf2, hpd, hcut2, htok, ?_⟩))))))
                        simp [parseJsonlLine, hb2, hjp, hty, hu, hf2, hpd, hcut2, htok]
                      · refine Or.inr (Or.inr (Or.inr (Or.inr (Or.inr (Or.inr (Or.inr
                          ⟨hb2, e, u, t, rfl, hty, hu, hf2, hpd, hcut2, htok, ?_⟩))))))
                        simp [parseJsonlLine, hb2, hjp, hty, hu, hf2, hpd, hcut2, htok]
        · refine Or.inr (Or.inr (Or.inl ⟨hb2, e, rfl, Or.inl hty, ?_⟩))
          simp [parseJsonlLine, hb2, hjp, hty]

/-- Claim C4: `parseJsonlLine` yields exactly one of four outcomes —
silent skip, `parseError`, `missingFields`, or a record.  `parseError`
holds exactly on a non-blank line that fails to parse as JSON;
`missingFields` exactly when the parsed entry is an assistant entry with
a usage object but with `sessionId`, `timestamp`, or `model` absent or
empty; a record outcome implies a parsed assistant entry with usage, a
finitely-parsing timestamp not before the cutoff, a non-zero token sum,
and the record's absent token sub-fields defaulted to 0 (`recOf`);
and each of the five silent-skip situations of the claim (blank line,
non-assistant type or no usage, unparseable timestamp, timestamp before
the cutoff, all-zero token sum) yields the empty outcome. -/
theorem parseJsonlLine_spec (jp : String → Option JsonlEntry)
    (pd : String → Option Int) (line : String) (since : Option Int) :
    (parseJsonlLine jp pd line since = {} ∨
     parseJsonlLine jp pd line since = { parseError := true } ∨
     parseJsonlLine jp pd line since = { missingFields := true } ∨
     (∃ rec, parseJsonlLine jp pd line since = { record := some rec })) ∧
    (parseJsonlLine jp pd line since = { parseError := true } ↔
      isBlankLine line = false ∧ jp line = none) ∧
    (parseJsonlLine jp pd line since = { missingFields := true } ↔
      isBlankLine line = false ∧ ∃ e, jp line = some e ∧
        e.type = some "assistant" ∧ (usageOf e).isSome = true ∧
        falsyE e = true) ∧
    (∀ rec, parseJsonlLine jp pd line since = { record := some rec } →
      ∃ e u t, jp line = some e ∧ e.type = some "assistant" ∧
        usageOf e = some u ∧ falsyE e = false ∧ rec = recOf e u ∧
        pd (tsOf e) = some t ∧ cutBySince since t = false ∧
        tokensTotal u ≠ 0) ∧
    (isBlankLine line = true → parseJsonlLine jp pd line since = {}) ∧
    (∀ e, jp line = some e →
      (e.type ≠ some "assistant" ∨ usageOf e = none) →
      parseJsonlLine jp pd line since = {}) ∧
    (∀ e u, jp line = some e → e.type = some "assistant" →
      usageOf e = some u → falsyE e = false → pd (tsOf e) = none →
      parseJsonlLine jp pd line since = {}) ∧
    (∀ e u t s, jp line = some e → e.type = some "assistant" →
      usageOf e = some u → falsyE e = false → pd (tsOf e) = some t →
      since = some s → t < s →
      parseJsonlLine jp pd line since = {}) ∧
    (∀ e u, jp line = some e → e.type = some "assistant" →
      usageOf e = some u → falsyE e = false → tokensTotal u = 0 →
      parseJsonlLine jp pd line since = {}) := by
  refine ⟨?_, ⟨?_, ?_⟩, ⟨?_, ?_⟩, ?_, ?_, ?_, ?_, ?_, ?_⟩
  · rcases parseJsonlLine_cases jp pd line since with
      ⟨_, hr⟩ | ⟨_, _, hr⟩ | ⟨_, e, _, _, hr⟩ | ⟨_, e, u, _, _, _, _, hr⟩ |
      ⟨_, e, u, _, _, _, _, _, hr⟩ | ⟨_, e, u, t, s, _, _, _, _, _, _, _, hr⟩ |
      ⟨_, e, u, t, _, _, _, _, _, _, _, hr⟩ | ⟨_, e, u, t, _, _, _, _, _, _, _, hr⟩
    · exact Or.inl hr
    · exact Or.inr (Or.inl hr)
    · exact Or.inl hr
    · exact Or.inr (Or.inr (Or.inl hr))
    · exact Or.inl hr
    · exact Or.inl hr
    · exact Or.inl hr
    · exact Or.inr (Or.inr (Or.inr ⟨recOf e u, hr⟩))
  · intro h
    rcases parseJsonlLine_cases jp pd line since with
      ⟨hb, hr⟩ | ⟨hb, hjp, hr⟩ | ⟨hb, e, hjp, hcond, hr⟩ |
      ⟨hb, e, u, hjp, hty, hu, hf, hr⟩ | ⟨hb, e, u, hjp, hty, hu, hf, hpd, hr⟩ |
      ⟨hb, e, u, t, s, hjp, hty, hu, hf, hpd, hs, hts, hr⟩ |
      ⟨hb, e, u, t, hjp, hty, hu, hf, hpd, hcut, htok, hr⟩ |
      ⟨hb, e, u, t, hjp, hty, hu, hf, hpd, hcut, htok, hr⟩
    · rw [hr] at h; simp at h
    · exact ⟨hb, hjp⟩
    · rw [hr] at h; simp at h
    · rw [hr] at h; simp at h
    · rw [hr] at h; simp at h
    · rw [hr] at h; simp at h
    · rw [hr] at h; simp at h
    · rw [hr] at h; simp at h
  · rintro ⟨hb, hjp⟩
    simp [parseJsonlLine, hb, hjp]
  · intro h
    rcases parseJsonlLine_cases jp pd line since with
      ⟨hb, hr⟩ | ⟨hb, hjp, hr⟩ | ⟨hb, e, hjp, hcond, hr⟩ |
      ⟨hb, e, u, hjp, hty, hu, hf, hr⟩ | ⟨hb, e, u, hjp, hty, hu, hf, hpd, hr⟩ |
      ⟨hb, e, u, t, s, hjp, hty, hu, hf, hpd, hs, hts, hr⟩ |
      ⟨hb, e, u, t, hjp, hty, hu, hf, hpd, hcut, htok, hr⟩ |
      ⟨hb, e, u, t, hjp, hty, hu, hf, hpd, hcut, htok, hr⟩
    · rw [hr] at h; simp at h
    · rw [hr] at h; simp at h
    · rw [hr] at h; simp at h
    · exact ⟨hb, e, hjp, hty, by simp [hu], hf⟩
    · rw [hr] at h; simp at h
    · rw [hr] at h; simp at h
    · rw [hr] at h; simp at h
    · rw [hr] at h; simp at h
  · rintro ⟨hb, e, hjp, hty, husome, hf⟩
    obtain ⟨u, hu⟩ := Option.isSome_iff_exists.mp husome
    simp [parseJsonlLine, hb, hjp, hty, hu, hf]
  · intro rec h
    rcases parseJsonlLine_cases jp pd line since with
      ⟨hb, hr⟩ | ⟨hb, hjp, hr⟩ | ⟨hb, e, hjp, hcond, hr⟩ |
      ⟨hb, e, u, hjp, hty, hu, hf, hr⟩ | ⟨hb, e, u, hjp, hty, hu, hf, hpd, hr⟩ |
      ⟨hb, e, u, t, s, hjp, hty, hu, hf, hpd, hs, hts, hr⟩ |
      ⟨hb, e, u, t, hjp, hty, hu, hf, hpd, hcut, htok, hr⟩ |
      ⟨hb, e, u, t, hjp, hty, hu, hf, hpd, hcut, htok, hr⟩
    · rw [hr] at h; simp at h
    · rw [hr] at h; simp at h
    · rw [hr] at h; simp at h
    · rw [hr] at h; simp at h
    · rw [hr] at h; simp at h
    · rw [hr] at h; simp at h
    · rw [hr] at h; simp at h
    · rw [hr] at h
      have hrec : rec = recOf e u := by
        have h2 : recOf e u = rec := by simpa using h
        exact h2.symm
      exact ⟨e, u, t, hjp, hty, hu, hf, hrec, hpd, hcut, htok⟩
  · intro hb
    simp [parseJsonlLine, hb]
  · intro e hjp hcond
    by_cases hb : isBlankLine line = true
    · simp [parseJsonlLine, hb]
    · have hb2 : isBlankLine line = false := by simpa using hb
      by_cases hty : e.type = some "assistant"
      · rcases hcond with h1 | h2
        · exact absurd hty h1
        · simp [parseJsonlLine, hb2, hjp, hty, h2]
      · simp [parseJsonlLine, hb2, hjp, hty]
  · intro e u hjp hty hu hf hpd
    by_cases hb : isBlankLine line = true
    · simp [parseJsonlLine, hb]
    · have hb2 : isBlankLine line = false := by simpa using hb
      simp [parseJsonlLine, hb2, hjp, hty, hu, hf, hpd]
  · intro e u t s hjp hty hu hf hpd hs hts
    by_cases hb : isBlankLine line = true
    · simp [parseJsonlLine, hb]
    · have hb2 : isBlankLine line = false := by simpa using hb
      subst hs
      simp [parseJsonlLine, hb2, hjp, hty, hu, hf, hpd, cutBySince, hts]
  · intro e u hjp hty hu hf htok
    by_cases hb : isBlankLine line = true
    · simp [parseJsonlLine, hb]
    · have hb2 : isBlankLine line = false := by simpa using hb
      cases hpd : pd (tsOf e) with
      | none => simp [parseJsonlLine, hb2, hjp, hty, hu, hf, hpd]
      | some t =>
          by_cases hcut : cutBySince since t = true
          · simp [parseJsonlLine, hb2, hjp, hty, hu, hf, hpd, hcut]
          · have hcut2 : cutBySince since t = false := by simpa using hcut
            simp [parseJsonlLine, hb2, hjp, hty, hu, hf, hpd, hcut2, htok]

/-- Claim C4 witness: a non-blank line that fails to parse yields the
`parseError` outcome, via the main theorem. -/
theorem parseJsonlLine_spec_witness :
    parseJsonlLine (fun _ => none) (fun _ => some 0) "x" none =
      { parseError := true } :=
  ((parseJsonlLine_spec (fun _ => none) (fun _ => some 0) "x" none).2.1).mpr
    ⟨by decide, rfl⟩

end Revenium
